import Mathlib

/-!
Shallow embedding of `src/toolkit/rumtk-core/src/cache.rs` (rumtk), the
lazily-initialized memoization cache, together with proofs of the spec's
claims about it.

Modelling choices, each tied to the Rust source:

* `RUMCache K V` (`AHashMap<K, V>` in the source) is modelled as an
  association list with the hash map's lookup/insert semantics: `alistLookup`
  returns the value stored under a key, `alistInsert` replaces the value when
  the key is present and otherwise adds a fresh entry.  None of the claims
  depend on iteration order, which is the only aspect a hash map leaves
  unspecified.
* `LazyRUMCache K V` (`Lazy<Arc<RUMCache<K, V>>>` in the source) carries an
  `Option (ArcCache K V)`: `none` is the uninitialized `Lazy` (no backing
  allocation has happened), `some c` is the forced state.  `ArcCache` records
  the `Arc` strong count (`Arc::get_mut` succeeds exactly when the owner is
  unique), the map contents, and the reserved capacity.  `with_capacity n`
  reserves at least `n` slots in `hashbrown`; the model records the requested
  capacity `n`, a lower bound on the real one, which is what the spec's
  "at least" claims need.
* Panics are modelled as `Except.error`: `CacheError.arcGetMutNone` is the
  `.unwrap()` on `Arc::get_mut` firing, `CacheError.cacheGetNone` is the
  `.unwrap()` on the final `cache.get(expr)` firing, and
  `CacheError.factoryFault` is a fault raised by the caller-supplied factory
  (in Rust a panic unwinding out of `new_fn`, whose call is evaluated before
  the `insert` it feeds).
* `RunResult.calls` counts how many times the factory was invoked during the
  call, instrumenting the "exactly once" claims.
-/

/-- Association-list lookup, modelling `AHashMap::get` / `contains_key`. -/
def alistLookup {K V : Type} [DecidableEq K] : List (K × V) → K → Option V
  | [], _ => none
  | (a, b) :: t, k => if a = k then some b else alistLookup t k

/-- Association-list insert, modelling `AHashMap::insert`: replaces the value
when the key is already present, otherwise appends a fresh entry. -/
def alistInsert {K V : Type} [DecidableEq K] : List (K × V) → K → V → List (K × V)
  | [], k, v => [(k, v)]
  | (a, b) :: t, k, v => if a = k then (k, v) :: t else (a, b) :: alistInsert t k v

/-- The forced state of the cache: the `Arc<RUMCache<K, V>>` together with the
capacity its map was allocated with.  `strong` is the `Arc` strong count;
`Arc::get_mut` returns `Some` exactly when `strong = 1` (the model carries no
weak handles; the source never creates any). -/
structure ArcCache (K V : Type) where
  strong : Nat
  map : List (K × V)
  capacity : Nat
deriving Repr, DecidableEq

/-- `pub type LazyRUMCache<K, V> = Lazy<Arc<RUMCache<K, V>>>`: `state = none`
is the unforced `Lazy` (no backing storage allocated yet). -/
structure LazyRUMCache (K V : Type) where
  state : Option (ArcCache K V)
deriving Repr, DecidableEq

/-- `pub const DEFAULT_CACHE_PAGE_SIZE: usize = 10;` -/
def DEFAULT_CACHE_PAGE_SIZE : Nat := 10

/-- `new_cache`: `LazyRUMCache::new(|| Arc::new(RUMCache::with_capacity(DEFAULT_CACHE_PAGE_SIZE)))`.
A `const fn`; building the `Lazy` allocates nothing. -/
def new_cache {K V : Type} : LazyRUMCache K V :=
  ⟨none⟩

/-- Dereferencing the `Lazy` (any access, read or write, does this) forces the
initializer: a fresh `Arc` (strong count 1) around an empty map allocated
`with_capacity(DEFAULT_CACHE_PAGE_SIZE)`. -/
def forceCache {K V : Type} (cache : LazyRUMCache K V) : ArcCache K V :=
  cache.state.getD ⟨1, [], DEFAULT_CACHE_PAGE_SIZE⟩

/-- The ways a call of `get_or_set_from_cache` can fail to return a value.
`ε` is the fault type of the caller-supplied factory. -/
inductive CacheError (ε : Type) where
  /-- The `.unwrap()` on `Arc::get_mut(cache)` panicked: the `Arc` was shared. -/
  | arcGetMutNone : CacheError ε
  /-- The `.unwrap()` on the final `cache.get(expr)` panicked: key absent. -/
  | cacheGetNone : CacheError ε
  /-- The caller-supplied factory faulted (a panic unwinding out of `new_fn`). -/
  | factoryFault (e : ε) : CacheError ε
deriving Repr

/-- The observable outcome of one `get_or_set_from_cache` call: the returned
value (or the panic/fault that escaped), the cache state afterwards, and how
many times the factory was invoked during the call. -/
structure RunResult (K V ε : Type) where
  out : Except (CacheError ε) V
  cache : LazyRUMCache K V
  calls : Nat
deriving Repr

/-- `get_or_set_from_cache`, with the factory's possible fault made explicit
(`new_fn : K → Except ε V`; the source signature `F: Fn(&K) -> V` is the
`ε := Empty` instance, see `get_or_set_from_cache` below).  Mirrors the source
line by line:

```rust
if !cache.contains_key(expr) {
    let mut cache_ref = Arc::get_mut(cache).unwrap();
    cache_ref.insert(expr.clone(), new_fn(expr).clone());
}
cache.get(expr).unwrap()
```

The first `contains_key` dereferences the `Lazy`, forcing initialization.  On
a miss, `Arc::get_mut` succeeds only for a unique owner (`strong = 1`); then
`new_fn(expr)` is evaluated (a fault here unwinds before `insert` runs, so the
map is untouched) and its value inserted.  Finally `cache.get(expr).unwrap()`
returns the stored value. -/
def get_or_set_from_cacheE {K V ε : Type} [DecidableEq K] (cache : LazyRUMCache K V)
    (expr : K) (new_fn : K → Except ε V) : RunResult K V ε :=
  let c := forceCache cache
  if (alistLookup c.map expr).isSome then
    match alistLookup c.map expr with
    | some v => ⟨Except.ok v, ⟨some c⟩, 0⟩
    | none => ⟨Except.error CacheError.cacheGetNone, ⟨some c⟩, 0⟩
  else
    if c.strong = 1 then
      match new_fn expr with
      | Except.error e => ⟨Except.error (CacheError.factoryFault e), ⟨some c⟩, 1⟩
      | Except.ok v =>
        let m := alistInsert c.map expr v
        match alistLookup m expr with
        | some w => ⟨Except.ok w, ⟨some ⟨c.strong, m, c.capacity⟩⟩, 1⟩
        | none => ⟨Except.error CacheError.cacheGetNone, ⟨some ⟨c.strong, m, c.capacity⟩⟩, 1⟩
    else
      ⟨Except.error CacheError.arcGetMutNone, ⟨some c⟩, 0⟩

/-- `get_or_set_from_cache` with the source's factory signature
`F: Fn(&K) -> V`: an infallible factory is the `ε := Empty` instance of
`get_or_set_from_cacheE`. -/
def get_or_set_from_cache {K V : Type} [DecidableEq K] (cache : LazyRUMCache K V)
    (expr : K) (new_fn : K → V) : RunResult K V Empty :=
  get_or_set_from_cacheE cache expr (fun k => Except.ok (new_fn k))

/-- A sequence of `get_or_set_from_cache` calls, each with its own key and
factory, threading the cache state. -/
def runMany {K V : Type} [DecidableEq K] (cache : LazyRUMCache K V)
    (ops : List (K × (K → V))) : LazyRUMCache K V :=
  ops.foldl (fun s op => (get_or_set_from_cache s op.1 op.2).cache) cache

/-! ## Concurrency model for `get_or_set_from_cache`

The source takes `&mut LazyRUMCache`, so two overlapping calls on one cache
only arise through the aliasing the `rumtk_cache_fetch!` macro's `unsafe`
block permits (both callers then drive the same `Lazy<Arc<..>>`; the `Arc`
stays uniquely owned, so `Arc::get_mut` succeeds).  The function body contains
no synchronization, so the callers' statements may interleave freely.  The
model below executes one such schedule of two callers for the same key, each
running the spec's test factory (increment a shared counter, return its new
value), under sequential consistency at statement granularity. -/

/-- Shared memory seen by two overlapping callers: the map contents plus the
shared counter the test factory increments. -/
structure SharedMem where
  map : List (Nat × Nat)
  counter : Nat
deriving Repr, DecidableEq

/-- The spec's test factory: increment the shared counter, return its new
value.  The counter's final value is the number of factory invocations. -/
def countingFactory (mem : SharedMem) : Nat × SharedMem :=
  (mem.counter + 1, ⟨mem.map, mem.counter + 1⟩)

/-- Two callers, A then B, each executing the body of
`get_or_set_from_cache` for key `k`, under the schedule in which both run
`!cache.contains_key(expr)` before either runs its `insert` — a schedule
nothing in the code rules out.  Each caller's steps follow the source: test
`contains_key`; if it reported a miss, run the factory and insert its value;
finally `cache.get(expr).unwrap()`.  Returns the value `get` hands caller A,
the value it hands caller B, and the final shared memory. -/
def twoCallersBothCheckFirst (k : Nat) (mem0 : SharedMem) :
    Option Nat × Option Nat × SharedMem :=
  let missA := !(alistLookup mem0.map k).isSome
  let missB := !(alistLookup mem0.map k).isSome
  let mem1 :=
    if missA then
      let r := countingFactory mem0
      ⟨alistInsert r.2.map k r.1, r.2.counter⟩
    else mem0
  let mem2 :=
    if missB then
      let r := countingFactory mem1
      ⟨alistInsert r.2.map k r.1, r.2.counter⟩
    else mem1
  (alistLookup mem2.map k, alistLookup mem2.map k, mem2)

/-! ## Map lemmas -/

theorem alistLookup_insert_self {K V : Type} [DecidableEq K] (m : List (K × V)) (k : K) (v : V) :
    alistLookup (alistInsert m k v) k = some v := by
  induction m with
  | nil => simp [alistInsert, alistLookup]
  | cons p t ih =>
    obtain ⟨a, b⟩ := p
    by_cases h : a = k
    · simp [alistInsert, alistLookup, h]
    · simp [alistInsert, alistLookup, h, ih]

theorem alistLookup_insert_ne {K V : Type} [DecidableEq K] (m : List (K × V)) (k k' : K) (v : V)
    (h : k' ≠ k) : alistLookup (alistInsert m k v) k' = alistLookup m k' := by
  have hne : k ≠ k' := fun hkk => h hkk.symm
  induction m with
  | nil => simp [alistInsert, alistLookup, hne]
  | cons p t ih =>
    obtain ⟨a, b⟩ := p
    by_cases ha : a = k
    · subst ha
      simp [alistInsert, alistLookup, hne]
    · simp [alistInsert, alistLookup, ha, ih]

/-! ## Characterization of the four paths of `get_or_set_from_cacheE` -/

/-- Hit path: the key is present, so the stored value is returned, the factory
is not invoked, and the cache (beyond being forced) is unchanged. -/
theorem goscE_hit {K V ε : Type} [DecidableEq K] (cache : LazyRUMCache K V) (expr : K)
    (new_fn : K → Except ε V) (v : V) (h : alistLookup (forceCache cache).map expr = some v) :
    get_or_set_from_cacheE cache expr new_fn =
      ⟨Except.ok v, ⟨some (forceCache cache)⟩, 0⟩ := by
  simp [get_or_set_from_cacheE, h]

/-- Miss path with a unique owner and a successful factory: the factory runs
once, its value is inserted under the key and returned. -/
theorem goscE_miss_ok {K V ε : Type} [DecidableEq K] (cache : LazyRUMCache K V) (expr : K)
    (new_fn : K → Except ε V) (v : V) (habs : alistLookup (forceCache cache).map expr = none)
    (hstrong : (forceCache cache).strong = 1) (hfn : new_fn expr = Except.ok v) :
    get_or_set_from_cacheE cache expr new_fn =
      ⟨Except.ok v,
        ⟨some ⟨(forceCache cache).strong, alistInsert (forceCache cache).map expr v,
          (forceCache cache).capacity⟩⟩, 1⟩ := by
  simp [get_or_set_from_cacheE, habs, hstrong, hfn, alistLookup_insert_self]

/-- Miss path with a unique owner and a faulting factory: the fault escapes
after exactly one invocation and nothing is inserted. -/
theorem goscE_miss_fault {K V ε : Type} [DecidableEq K] (cache : LazyRUMCache K V) (expr : K)
    (new_fn : K → Except ε V) (e : ε) (habs : alistLookup (forceCache cache).map expr = none)
    (hstrong : (forceCache cache).strong = 1) (hfn : new_fn expr = Except.error e) :
    get_or_set_from_cacheE cache expr new_fn =
      ⟨Except.error (CacheError.factoryFault e), ⟨some (forceCache cache)⟩, 1⟩ := by
  simp [get_or_set_from_cacheE, habs, hstrong, hfn]

/-- Miss path on a shared `Arc`: `Arc::get_mut(cache).unwrap()` panics before
the factory is ever invoked, and nothing is inserted. -/
theorem goscE_miss_shared {K V ε : Type} [DecidableEq K] (cache : LazyRUMCache K V) (expr : K)
    (new_fn : K → Except ε V) (habs : alistLookup (forceCache cache).map expr = none)
    (hstrong : (forceCache cache).strong ≠ 1) :
    get_or_set_from_cacheE cache expr new_fn =
      ⟨Except.error CacheError.arcGetMutNone, ⟨some (forceCache cache)⟩, 0⟩ := by
  simp [get_or_set_from_cacheE, habs, hstrong]

/-! ## Corollaries for the source signature (infallible factory) -/

theorem forceCache_some {K V : Type} (c : ArcCache K V) :
    forceCache (⟨some c⟩ : LazyRUMCache K V) = c := rfl

/-- Hit path of `get_or_set_from_cache`. -/
theorem gosc_hit {K V : Type} [DecidableEq K] (cache : LazyRUMCache K V) (k : K)
    (f : K → V) (v : V) (h : alistLookup (forceCache cache).map k = some v) :
    get_or_set_from_cache cache k f = ⟨Except.ok v, ⟨some (forceCache cache)⟩, 0⟩ :=
  goscE_hit cache k _ v h

/-- Miss path of `get_or_set_from_cache` with a unique owner. -/
theorem gosc_miss {K V : Type} [DecidableEq K] (cache : LazyRUMCache K V) (k : K)
    (f : K → V) (habs : alistLookup (forceCache cache).map k = none)
    (hstrong : (forceCache cache).strong = 1) :
    get_or_set_from_cache cache k f =
      ⟨Except.ok (f k),
        ⟨some ⟨(forceCache cache).strong, alistInsert (forceCache cache).map k (f k),
          (forceCache cache).capacity⟩⟩, 1⟩ :=
  goscE_miss_ok cache k _ (f k) habs hstrong rfl

/-! ## Preservation lemmas -/

/-- A stored entry survives any later call, whatever its key, factory and
outcome: no path of `get_or_set_from_cacheE` removes or replaces an existing
entry. -/
theorem goscE_preserves_lookup {K V ε : Type} [DecidableEq K] (cache : LazyRUMCache K V)
    (k k' : K) (nf : K → Except ε V) (v : V)
    (h : alistLookup (forceCache cache).map k = some v) :
    alistLookup (forceCache (get_or_set_from_cacheE cache k' nf).cache).map k = some v := by
  by_cases hk' : (alistLookup (forceCache cache).map k').isSome
  · obtain ⟨w, hw⟩ := Option.isSome_iff_exists.mp hk'
    rw [goscE_hit cache k' nf w hw]
    exact h
  · have habs : alistLookup (forceCache cache).map k' = none :=
      Option.not_isSome_iff_eq_none.mp hk'
    have hne : k ≠ k' := by
      intro he
      rw [he, habs] at h
      cases h
    by_cases hs : (forceCache cache).strong = 1
    · cases hnf : nf k' with
      | ok w =>
        rw [goscE_miss_ok cache k' nf w habs hs hnf]
        rw [forceCache_some]
        rw [alistLookup_insert_ne (forceCache cache).map k' k w hne]
        exact h
      | error e =>
        rw [goscE_miss_fault cache k' nf e habs hs hnf]
        exact h
    · rw [goscE_miss_shared cache k' nf habs hs]
      exact h

/-- A lookup of a key other than the one a call inserts is unchanged by the
call, on every path. -/
theorem goscE_lookup_other {K V ε : Type} [DecidableEq K] (cache : LazyRUMCache K V)
    (k1 k2 : K) (nf : K → Except ε V) (hne : k2 ≠ k1) :
    alistLookup (forceCache (get_or_set_from_cacheE cache k1 nf).cache).map k2
      = alistLookup (forceCache cache).map k2 := by
  by_cases hk1 : (alistLookup (forceCache cache).map k1).isSome
  · obtain ⟨w, hw⟩ := Option.isSome_iff_exists.mp hk1
    rw [goscE_hit cache k1 nf w hw]
    rfl
  · have habs : alistLookup (forceCache cache).map k1 = none :=
      Option.not_isSome_iff_eq_none.mp hk1
    by_cases hs : (forceCache cache).strong = 1
    · cases hnf : nf k1 with
      | ok w =>
        rw [goscE_miss_ok cache k1 nf w habs hs hnf]
        rw [forceCache_some]
        exact alistLookup_insert_ne (forceCache cache).map k1 k2 w hne
      | error e =>
        rw [goscE_miss_fault cache k1 nf e habs hs hnf]
        rfl
    · rw [goscE_miss_shared cache k1 nf habs hs]
      rfl

/-- A stored entry survives any sequence of later calls. -/
theorem runMany_preserves_lookup {K V : Type} [DecidableEq K] (cache : LazyRUMCache K V)
    (k : K) (v : V) (ops : List (K × (K → V)))
    (h : alistLookup (forceCache cache).map k = some v) :
    alistLookup (forceCache (runMany cache ops)).map k = some v := by
  induction ops generalizing cache with
  | nil => exact h
  | cons op rest ih =>
    exact ih (get_or_set_from_cache cache op.1 op.2).cache
      (goscE_preserves_lookup cache k op.1 _ v h)

/-! ## Claims -/

/-- Claim C1: for every cache state (with the backing `Arc` uniquely owned, as
it is for every state the module's own API can produce), key `k` and factory
`f`, `get_or_set_from_cache` returns the stored value for `k` without invoking
`f` when `k` is present, and when `k` is absent invokes `f` exactly once,
inserts the resulting value under `k`, and returns that value. -/
theorem claim_C1 {K V : Type} [DecidableEq K] (cache : LazyRUMCache K V) (k : K) (f : K → V)
    (hstrong : (forceCache cache).strong = 1) :
    (∀ v, alistLookup (forceCache cache).map k = some v →
      (get_or_set_from_cache cache k f).out = Except.ok v ∧
      (get_or_set_from_cache cache k f).calls = 0) ∧
    (alistLookup (forceCache cache).map k = none →
      (get_or_set_from_cache cache k f).out = Except.ok (f k) ∧
      (get_or_set_from_cache cache k f).calls = 1 ∧
      alistLookup (forceCache (get_or_set_from_cache cache k f).cache).map k = some (f k)) := by
  constructor
  · intro v hv
    rw [gosc_hit cache k f v hv]
    exact ⟨rfl, rfl⟩
  · intro habs
    rw [gosc_miss cache k f habs hstrong]
    refine ⟨rfl, rfl, ?_⟩
    rw [forceCache_some]
    exact alistLookup_insert_self (forceCache cache).map k (f k)

/-- Witness for C1: a cache holding `0 ↦ 5`; a hit on key `0` returns `5` with
no factory call, a miss on key `1` runs the factory once and stores `2`. -/
theorem claim_C1_witness :
    ((get_or_set_from_cache (⟨some ⟨1, [(0, 5)], 10⟩⟩ : LazyRUMCache Nat Nat) 0
        (fun n => n + 1)).out = Except.ok 5 ∧
      (get_or_set_from_cache (⟨some ⟨1, [(0, 5)], 10⟩⟩ : LazyRUMCache Nat Nat) 0
        (fun n => n + 1)).calls = 0) ∧
    ((get_or_set_from_cache (⟨some ⟨1, [(0, 5)], 10⟩⟩ : LazyRUMCache Nat Nat) 1
        (fun n => n + 1)).out = Except.ok 2 ∧
      (get_or_set_from_cache (⟨some ⟨1, [(0, 5)], 10⟩⟩ : LazyRUMCache Nat Nat) 1
        (fun n => n + 1)).calls = 1 ∧
      alistLookup (forceCache (get_or_set_from_cache
        (⟨some ⟨1, [(0, 5)], 10⟩⟩ : LazyRUMCache Nat Nat) 1
        (fun n => n + 1)).cache).map 1 = some 2) :=
  ⟨(claim_C1 (⟨some ⟨1, [(0, 5)], 10⟩⟩ : LazyRUMCache Nat Nat) 0 (fun n => n + 1) rfl).1 5 rfl,
   (claim_C1 (⟨some ⟨1, [(0, 5)], 10⟩⟩ : LazyRUMCache Nat Nat) 1 (fun n => n + 1) rfl).2 rfl⟩

/-- Claim C2: starting from a cache in which `k` is absent (backing `Arc`
uniquely owned), two successive calls for `k` with factory `f` invoke `f`
exactly once in total, the second call returns the same value as the first,
and every later call for `k` — after any sequence of intervening calls, with
any factory — returns that same value. -/
theorem claim_C2 {K V : Type} [DecidableEq K] (cache : LazyRUMCache K V) (k : K) (f : K → V)
    (habs : alistLookup (forceCache cache).map k = none)
    (hstrong : (forceCache cache).strong = 1) :
    (get_or_set_from_cache cache k f).calls +
      (get_or_set_from_cache (get_or_set_from_cache cache k f).cache k f).calls = 1 ∧
    (get_or_set_from_cache (get_or_set_from_cache cache k f).cache k f).out
      = (get_or_set_from_cache cache k f).out ∧
    ∀ (ops : List (K × (K → V))) (g : K → V),
      (get_or_set_from_cache (runMany (get_or_set_from_cache cache k f).cache ops) k g).out
        = (get_or_set_from_cache cache k f).out := by
  have h1 := gosc_miss cache k f habs hstrong
  have hlook : alistLookup (forceCache (get_or_set_from_cache cache k f).cache).map k
      = some (f k) := by
    rw [h1, forceCache_some]
    exact alistLookup_insert_self (forceCache cache).map k (f k)
  refine ⟨?_, ?_, ?_⟩
  · rw [gosc_hit _ k f (f k) hlook, h1]
    rfl
  · rw [gosc_hit _ k f (f k) hlook, h1]
  · intro ops g
    have hmany := runMany_preserves_lookup (get_or_set_from_cache cache k f).cache
      k (f k) ops hlook
    rw [gosc_hit _ k g (f k) hmany, h1]

/-- Witness for C2: a fresh cache, key `0`, factory `n ↦ n + 7`; two calls make
one factory invocation in total and agree, and after an intervening call for
key `1` a third call for `0` with a different factory still returns `7`. -/
theorem claim_C2_witness :
    (get_or_set_from_cache (new_cache : LazyRUMCache Nat Nat) 0 (fun n => n + 7)).calls +
      (get_or_set_from_cache (get_or_set_from_cache (new_cache : LazyRUMCache Nat Nat) 0
        (fun n => n + 7)).cache 0 (fun n => n + 7)).calls = 1 ∧
    (get_or_set_from_cache (get_or_set_from_cache (new_cache : LazyRUMCache Nat Nat) 0
        (fun n => n + 7)).cache 0 (fun n => n + 7)).out
      = (get_or_set_from_cache (new_cache : LazyRUMCache Nat Nat) 0 (fun n => n + 7)).out ∧
    (get_or_set_from_cache (runMany (get_or_set_from_cache (new_cache : LazyRUMCache Nat Nat) 0
        (fun n => n + 7)).cache [(1, fun n => n + 7)]) 0 (fun n => n + 100)).out
      = (get_or_set_from_cache (new_cache : LazyRUMCache Nat Nat) 0 (fun n => n + 7)).out := by
  have h := claim_C2 (new_cache : LazyRUMCache Nat Nat) 0 (fun n => n + 7) rfl rfl
  exact ⟨h.1, h.2.1, h.2.2 [(1, fun n => n + 7)] (fun n => n + 100)⟩

/-- Claim C3: once a value is stored for `k`, no later call — with any key,
factory, or sequence of calls — removes, replaces or updates it; a call for an
already-present `k` leaves the whole cache unchanged (the "second insert" is a
no-op because the insert is never executed on a hit). -/
theorem claim_C3 {K V : Type} [DecidableEq K] (cache : LazyRUMCache K V) (k : K) (v : V)
    (h : alistLookup (forceCache cache).map k = some v) :
    (∀ (k' : K) (g : K → V),
      alistLookup (forceCache (get_or_set_from_cache cache k' g).cache).map k = some v) ∧
    (∀ (g : K → V), (get_or_set_from_cache cache k g).cache = ⟨some (forceCache cache)⟩) ∧
    ∀ (ops : List (K × (K → V))),
      alistLookup (forceCache (runMany cache ops)).map k = some v := by
  refine ⟨?_, ?_, ?_⟩
  · intro k' g
    exact goscE_preserves_lookup cache k k' _ v h
  · intro g
    rw [gosc_hit cache k g v h]
  · intro ops
    exact runMany_preserves_lookup cache k v ops h

/-- Witness for C3: a cache holding `3 ↦ 9`; a call for key `4`, a call for
key `3` itself, and a two-call sequence all leave `3 ↦ 9` in place. -/
theorem claim_C3_witness :
    alistLookup (forceCache (get_or_set_from_cache
      (⟨some ⟨1, [(3, 9)], 10⟩⟩ : LazyRUMCache Nat Nat) 4 (fun n => n * n)).cache).map 3
      = some 9 ∧
    (get_or_set_from_cache (⟨some ⟨1, [(3, 9)], 10⟩⟩ : LazyRUMCache Nat Nat) 3
      (fun n => n * n)).cache = ⟨some ⟨1, [(3, 9)], 10⟩⟩ ∧
    alistLookup (forceCache (runMany (⟨some ⟨1, [(3, 9)], 10⟩⟩ : LazyRUMCache Nat Nat)
      [(4, fun n => n * n), (3, fun n => n + 1)])).map 3 = some 9 := by
  have h := claim_C3 (⟨some ⟨1, [(3, 9)], 10⟩⟩ : LazyRUMCache Nat Nat) 3 9 rfl
  exact ⟨h.1 4 (fun n => n * n), h.2.1 (fun n => n * n),
    h.2.2 [(4, fun n => n * n), (3, fun n => n + 1)]⟩

/-- Claim C4: a factory fault for an absent key `k` propagates to the caller
(one invocation, nothing memoized — `new_fn(expr)` is evaluated before the
`insert` it feeds, so the unwinding skips the insert), `k` stays absent, and a
subsequent call for `k` with a succeeding factory computes, stores and returns
its value. -/
theorem claim_C4 {K V ε : Type} [DecidableEq K] (cache : LazyRUMCache K V) (k : K)
    (nf : K → Except ε V) (e : ε) (g : K → V)
    (habs : alistLookup (forceCache cache).map k = none)
    (hstrong : (forceCache cache).strong = 1)
    (hfail : nf k = Except.error e) :
    (get_or_set_from_cacheE cache k nf).out = Except.error (CacheError.factoryFault e) ∧
    (get_or_set_from_cacheE cache k nf).calls = 1 ∧
    alistLookup (forceCache (get_or_set_from_cacheE cache k nf).cache).map k = none ∧
    (get_or_set_from_cache (get_or_set_from_cacheE cache k nf).cache k g).out
      = Except.ok (g k) ∧
    (get_or_set_from_cache (get_or_set_from_cacheE cache k nf).cache k g).calls = 1 ∧
    alistLookup (forceCache (get_or_set_from_cache
      (get_or_set_from_cacheE cache k nf).cache k g).cache).map k = some (g k) := by
  have h1 := goscE_miss_fault cache k nf e habs hstrong hfail
  have habs2 : alistLookup (forceCache (get_or_set_from_cacheE cache k nf).cache).map k
      = none := by
    rw [h1, forceCache_some]
    exact habs
  have hstrong2 : (forceCache (get_or_set_from_cacheE cache k nf).cache).strong = 1 := by
    rw [h1, forceCache_some]
    exact hstrong
  have h2 := gosc_miss (get_or_set_from_cacheE cache k nf).cache k g habs2 hstrong2
  refine ⟨by rw [h1], by rw [h1], habs2, by rw [h2], by rw [h2], ?_⟩
  rw [h2, forceCache_some]
  exact alistLookup_insert_self _ k (g k)

/-- Witness for C4: a fresh cache, key `0`, a factory that faults with `7`;
the fault escapes, `0` stays absent, and a retry with `n ↦ n + 3` stores and
returns `3`. -/
theorem claim_C4_witness :
    (get_or_set_from_cacheE (new_cache : LazyRUMCache Nat Nat) 0
      (fun _ => (Except.error 7 : Except Nat Nat))).out
      = Except.error (CacheError.factoryFault 7) ∧
    (get_or_set_from_cacheE (new_cache : LazyRUMCache Nat Nat) 0
      (fun _ => (Except.error 7 : Except Nat Nat))).calls = 1 ∧
    alistLookup (forceCache (get_or_set_from_cacheE (new_cache : LazyRUMCache Nat Nat) 0
      (fun _ => (Except.error 7 : Except Nat Nat))).cache).map 0 = none ∧
    (get_or_set_from_cache (get_or_set_from_cacheE (new_cache : LazyRUMCache Nat Nat) 0
      (fun _ => (Except.error 7 : Except Nat Nat))).cache 0 (fun n => n + 3)).out
      = Except.ok 3 ∧
    (get_or_set_from_cache (get_or_set_from_cacheE (new_cache : LazyRUMCache Nat Nat) 0
      (fun _ => (Except.error 7 : Except Nat Nat))).cache 0 (fun n => n + 3)).calls = 1 ∧
    alistLookup (forceCache (get_or_set_from_cache (get_or_set_from_cacheE
      (new_cache : LazyRUMCache Nat Nat) 0
      (fun _ => (Except.error 7 : Except Nat Nat))).cache 0 (fun n => n + 3)).cache).map 0
      = some 3 :=
  claim_C4 (new_cache : LazyRUMCache Nat Nat) 0
    (fun _ => (Except.error 7 : Except Nat Nat)) 7 (fun n => n + 3) rfl rfl rfl

/-- Shared-`Arc` miss path for the source signature. -/
theorem gosc_miss_shared {K V : Type} [DecidableEq K] (cache : LazyRUMCache K V) (k : K)
    (f : K → V) (habs : alistLookup (forceCache cache).map k = none)
    (hstrong : (forceCache cache).strong ≠ 1) :
    get_or_set_from_cache cache k f =
      ⟨Except.error CacheError.arcGetMutNone, ⟨some (forceCache cache)⟩, 0⟩ :=
  goscE_miss_shared cache k _ habs hstrong

/-- Claim C5, refuted at a concrete input (the unsoundness the spec's design
notes flag): on a handle whose backing `Arc` is shared (strong count 2), the
insert path taken on a cache miss does not complete —
`Arc::get_mut(cache).unwrap()` panics before the factory is ever invoked and
nothing is inserted.  Only a hit completes on a shared handle. -/
theorem claim_C5 :
    (get_or_set_from_cache (⟨some ⟨2, [], 10⟩⟩ : LazyRUMCache Nat Nat) 0
      (fun n => n + 1)).out = Except.error CacheError.arcGetMutNone ∧
    (get_or_set_from_cache (⟨some ⟨2, [], 10⟩⟩ : LazyRUMCache Nat Nat) 0
      (fun n => n + 1)).calls = 0 ∧
    (get_or_set_from_cache (⟨some ⟨2, [], 10⟩⟩ : LazyRUMCache Nat Nat) 0
      (fun n => n + 1)).cache = ⟨some ⟨2, [], 10⟩⟩ ∧
    (get_or_set_from_cache (⟨some ⟨2, [(0, 5)], 10⟩⟩ : LazyRUMCache Nat Nat) 0
      (fun n => n + 1)).out = Except.ok 5 :=
  ⟨rfl, rfl, rfl, rfl⟩

/-- Claim C6, refuted at a concrete schedule: two overlapping callers for the
absent key `0` of an empty cache, each running the spec's counting factory,
under the schedule in which both `contains_key` tests precede both inserts
(nothing in the unsynchronized body forbids it).  The shared counter ends at
2 — the factory ran twice for one key, not at most once — even though both
callers read the same final value here. -/
theorem claim_C6 :
    (twoCallersBothCheckFirst 0 ⟨[], 0⟩).2.2.counter = 2 ∧
    (twoCallersBothCheckFirst 0 ⟨[], 0⟩).1 = some 2 ∧
    (twoCallersBothCheckFirst 0 ⟨[], 0⟩).2.1 = some 2 :=
  ⟨rfl, rfl, rfl⟩

/-- Claim C7: `new_cache` allocates no backing storage (the `Lazy` is left
unforced); the first access — forcing the `Lazy`, which any read or write
does — allocates an empty map whose reserved capacity is
`DEFAULT_CACHE_PAGE_SIZE = 10`; and after the first `get_or_set_from_cache`
call the backing store exists with capacity at least
`DEFAULT_CACHE_PAGE_SIZE`. -/
theorem claim_C7 {K V : Type} [DecidableEq K] :
    (new_cache : LazyRUMCache K V).state = none ∧
    forceCache (new_cache : LazyRUMCache K V) = ⟨1, [], DEFAULT_CACHE_PAGE_SIZE⟩ ∧
    DEFAULT_CACHE_PAGE_SIZE = 10 ∧
    ∀ (k : K) (f : K → V), ∃ c : ArcCache K V,
      (get_or_set_from_cache (new_cache : LazyRUMCache K V) k f).cache.state = some c ∧
      c.map = [(k, f k)] ∧ DEFAULT_CACHE_PAGE_SIZE ≤ c.capacity := by
  refine ⟨rfl, rfl, rfl, ?_⟩
  intro k f
  refine ⟨⟨1, [(k, f k)], DEFAULT_CACHE_PAGE_SIZE⟩, ?_, rfl, le_refl _⟩
  rw [gosc_miss new_cache k f rfl rfl]
  rfl

/-- Claim C8: a call for `k1` leaves the entry (or absence) of any distinct
`k2` unchanged on every path; a hit on `k1` leaves the whole map unchanged;
a miss on `k1` with a unique owner makes the new map exactly the old map plus
the one entry for `k1`. -/
theorem claim_C8 {K V : Type} [DecidableEq K] (cache : LazyRUMCache K V) (k1 k2 : K)
    (f : K → V) (hne : k1 ≠ k2) :
    alistLookup (forceCache (get_or_set_from_cache cache k1 f).cache).map k2
      = alistLookup (forceCache cache).map k2 ∧
    (∀ v, alistLookup (forceCache cache).map k1 = some v →
      (get_or_set_from_cache cache k1 f).cache = ⟨some (forceCache cache)⟩) ∧
    (alistLookup (forceCache cache).map k1 = none → (forceCache cache).strong = 1 →
      (forceCache (get_or_set_from_cache cache k1 f).cache).map
        = alistInsert (forceCache cache).map k1 (f k1)) := by
  refine ⟨goscE_lookup_other cache k1 k2 _ (fun h => hne h.symm), ?_, ?_⟩
  · intro v hv
    rw [gosc_hit cache k1 f v hv]
  · intro habs hstrong
    rw [gosc_miss cache k1 f habs hstrong, forceCache_some]

/-- Witness for C8: a cache holding `2 ↦ 4`; a miss on key `0` leaves key `2`
alone and adds exactly `0 ↦ 1`, and a hit on key `2` leaves the cache as it
was. -/
theorem claim_C8_witness :
    alistLookup (forceCache (get_or_set_from_cache
      (⟨some ⟨1, [(2, 4)], 10⟩⟩ : LazyRUMCache Nat Nat) 0 (fun n => n + 1)).cache).map 2
      = alistLookup (forceCache (⟨some ⟨1, [(2, 4)], 10⟩⟩ : LazyRUMCache Nat Nat)).map 2 ∧
    (forceCache (get_or_set_from_cache (⟨some ⟨1, [(2, 4)], 10⟩⟩ : LazyRUMCache Nat Nat) 0
      (fun n => n + 1)).cache).map = alistInsert [(2, 4)] 0 1 ∧
    (get_or_set_from_cache (⟨some ⟨1, [(2, 4)], 10⟩⟩ : LazyRUMCache Nat Nat) 2
      (fun n => n + 1)).cache = ⟨some ⟨1, [(2, 4)], 10⟩⟩ := by
  have h1 := claim_C8 (⟨some ⟨1, [(2, 4)], 10⟩⟩ : LazyRUMCache Nat Nat) 0 2
    (fun n => n + 1) (by decide)
  have h2 := claim_C8 (⟨some ⟨1, [(2, 4)], 10⟩⟩ : LazyRUMCache Nat Nat) 2 0
    (fun n => n + 1) (by decide)
  exact ⟨h1.1, h1.2.2 rfl rfl, h2.2.1 4 rfl⟩

/-- Claim C9: the final `cache.get(expr)` after the conditional insert always
finds the key present, so its `.unwrap()` never hits the `None` branch: every
outcome of a call is a returned value, the `Arc::get_mut` panic, or the
factory's own fault — never `CacheError.cacheGetNone`. -/
theorem claim_C9 {K V ε : Type} [DecidableEq K] (cache : LazyRUMCache K V) (k : K)
    (nf : K → Except ε V) :
    (∃ v, (get_or_set_from_cacheE cache k nf).out = Except.ok v) ∨
    (get_or_set_from_cacheE cache k nf).out = Except.error CacheError.arcGetMutNone ∨
    ∃ e, (get_or_set_from_cacheE cache k nf).out
      = Except.error (CacheError.factoryFault e) := by
  by_cases hk : (alistLookup (forceCache cache).map k).isSome
  · obtain ⟨w, hw⟩ := Option.isSome_iff_exists.mp hk
    exact Or.inl ⟨w, by rw [goscE_hit cache k nf w hw]⟩
  · have habs : alistLookup (forceCache cache).map k = none :=
      Option.not_isSome_iff_eq_none.mp hk
    by_cases hs : (forceCache cache).strong = 1
    · cases hnf : nf k with
      | ok v =>
        exact Or.inl ⟨v, by rw [goscE_miss_ok cache k nf v habs hs hnf]⟩
      | error e =>
        exact Or.inr (Or.inr ⟨e, by rw [goscE_miss_fault cache k nf e habs hs hnf]⟩)
    · exact Or.inr (Or.inl (by rw [goscE_miss_shared cache k nf habs hs]))

/-- Claim C10: determinism — two runs from caches with extensionally equal
contents (and equal `Arc` sharing state), the same key and the same pure
factory, produce the same outcome, the same number of factory invocations,
and caches with extensionally equal contents. -/
theorem claim_C10 {K V : Type} [DecidableEq K] (s1 s2 : LazyRUMCache K V) (k : K) (f : K → V)
    (hmap : ∀ x, alistLookup (forceCache s1).map x = alistLookup (forceCache s2).map x)
    (hstrong : (forceCache s1).strong = (forceCache s2).strong) :
    (get_or_set_from_cache s1 k f).out = (get_or_set_from_cache s2 k f).out ∧
    (get_or_set_from_cache s1 k f).calls = (get_or_set_from_cache s2 k f).calls ∧
    ∀ x, alistLookup (forceCache (get_or_set_from_cache s1 k f).cache).map x
      = alistLookup (forceCache (get_or_set_from_cache s2 k f).cache).map x := by
  cases hk : alistLookup (forceCache s1).map k with
  | some v =>
    have hk2 : alistLookup (forceCache s2).map k = some v := by
      rw [← hmap k]
      exact hk
    rw [gosc_hit s1 k f v hk, gosc_hit s2 k f v hk2]
    exact ⟨rfl, rfl, fun x => by rw [forceCache_some, forceCache_some]; exact hmap x⟩
  | none =>
    have hk2 : alistLookup (forceCache s2).map k = none := by
      rw [← hmap k]
      exact hk
    by_cases hs : (forceCache s1).strong = 1
    · have hs2 : (forceCache s2).strong = 1 := by
        rw [← hstrong]
        exact hs
      rw [gosc_miss s1 k f hk hs, gosc_miss s2 k f hk2 hs2]
      refine ⟨rfl, rfl, fun x => ?_⟩
      rw [forceCache_some, forceCache_some]
      by_cases hx : x = k
      · subst hx
        rw [alistLookup_insert_self, alistLookup_insert_self]
      · rw [alistLookup_insert_ne _ _ _ _ hx, alistLookup_insert_ne _ _ _ _ hx]
        exact hmap x
    · have hs2 : (forceCache s2).strong ≠ 1 := by
        rw [← hstrong]
        exact hs
      rw [gosc_miss_shared s1 k f hk hs, gosc_miss_shared s2 k f hk2 hs2]
      exact ⟨rfl, rfl, fun x => by rw [forceCache_some, forceCache_some]; exact hmap x⟩

/-- Witness for C10: two caches holding the same two entries in different
storage order and with different capacities; a miss for key `0` gives both the
same outcome, the same single factory call, and agreeing lookups. -/
theorem claim_C10_witness :
    (get_or_set_from_cache (⟨some ⟨1, [(1, 4), (2, 5)], 10⟩⟩ : LazyRUMCache Nat Nat) 0
      (fun n => 2 * n)).out
      = (get_or_set_from_cache (⟨some ⟨1, [(2, 5), (1, 4)], 3⟩⟩ : LazyRUMCache Nat Nat) 0
      (fun n => 2 * n)).out ∧
    (get_or_set_from_cache (⟨some ⟨1, [(1, 4), (2, 5)], 10⟩⟩ : LazyRUMCache Nat Nat) 0
      (fun n => 2 * n)).calls
      = (get_or_set_from_cache (⟨some ⟨1, [(2, 5), (1, 4)], 3⟩⟩ : LazyRUMCache Nat Nat) 0
      (fun n => 2 * n)).calls ∧
    alistLookup (forceCache (get_or_set_from_cache
      (⟨some ⟨1, [(1, 4), (2, 5)], 10⟩⟩ : LazyRUMCache Nat Nat) 0
      (fun n => 2 * n)).cache).map 1
      = alistLookup (forceCache (get_or_set_from_cache
      (⟨some ⟨1, [(2, 5), (1, 4)], 3⟩⟩ : LazyRUMCache Nat Nat) 0
      (fun n => 2 * n)).cache).map 1 := by
  have hmap : ∀ x : Nat,
      alistLookup [((1 : Nat), (4 : Nat)), (2, 5)] x
        = alistLookup [((2 : Nat), (5 : Nat)), (1, 4)] x := by
    intro x
    by_cases h1 : (1 : Nat) = x
    · subst h1
      decide
    · by_cases h2 : (2 : Nat) = x
      · subst h2
        decide
      · simp [alistLookup, h1, h2]
  have h := claim_C10 (⟨some ⟨1, [(1, 4), (2, 5)], 10⟩⟩ : LazyRUMCache Nat Nat)
    (⟨some ⟨1, [(2, 5), (1, 4)], 3⟩⟩ : LazyRUMCache Nat Nat) 0 (fun n => 2 * n) hmap rfl
  exact ⟨h.1, h.2.1, h.2.2 1⟩
